import Mathlib

/-!
Verification of the transport/encoding layer of the `hpswitch` library
against its natural-language specification.

The Lean definitions below are shallow embeddings of the Python source:

* `stripVT100`, `execute_command` … — `hpswitch/switch.py`, `Switch.execute_command`
* `get_port_list_enabled_ports`     — `hpswitch/port.py`, `get_port_list_enabled_ports`
* `port_base_port`, `port_identifier` — `hpswitch/port.py`, `Port.__init__` / `Port.identifier`
* `interface_list_from_string`      — `hpswitch/vlan.py`, `VLAN._interface_list_from_interface_list_string`
* `tagged_vlans_from_string`        — `hpswitch/interface.py`, `Interface._get_tagged_vlans`
* `interface_set_name`, `port_set_alias` — `hpswitch/interface.py` / `hpswitch/port.py`
* `vlan_add_ipv4_outcome`, `vlan_add_tagged_outcome` — `hpswitch/vlan.py`

Python strings are modelled as `List Char`; byte strings as `List Nat`
(one `Nat < 256` per byte).  Definitions named `spec...` are, exceptionally,
modelled from the specification's own words and serve only as the comparison
point for refinement/correction claims; everything else is translated from
the source.
-/

namespace HpSwitch

/-- ASCII letter, the character class `[A-Za-z]` used by the control-sequence
regular expression in `switch.py` and the alpha-component split in `vlan.py`,
written via code points (65-90 and 97-122). -/
def isAsciiLetterChar (c : Char) : Bool :=
  (65 ≤ c.toNat && c.toNat ≤ 90) || (97 ≤ c.toNat && c.toNat ≤ 122)

/-- ASCII decimal digit `[0-9]`, written via code points (48-57). -/
def isDigitChar (c : Char) : Bool :=
  48 ≤ c.toNat && c.toNat ≤ 57

/-- The ESC byte `\x1B` that heads every VT100 control sequence. -/
def escChar : Char := '\x1b'

/-!
## The VT100 stripper

`switch.py` line 52 removes control sequences with
`re.sub("\x1B[^A-Za-z]*?[A-Za-z]", '', recv_buffer)`: an ESC byte, then any
number of non-letter bytes, then exactly one letter.  Because the middle class
`[^A-Za-z]` and the final class `[A-Za-z]` are complementary, a match starting
at an ESC always runs up to the first letter after it (the non-greedy `*?`
changes nothing); if no letter follows the ESC anywhere in the rest of the
string, neither that position nor any later position can match, so the
remainder is kept verbatim.  `stripAux` is that left-to-right automaton:
`pending = some p` means we are inside a candidate sequence whose characters
so far are `p` (kept verbatim if the input ends before a letter arrives).
-/

/-- One-pass automaton equivalent of `re.sub("\x1B[^A-Za-z]*?[A-Za-z]", '', s)`. -/
def stripAux : Option (List Char) → List Char → List Char
  | none, [] => []
  | some p, [] => p
  | none, c :: cs =>
    if c = escChar then stripAux (some [escChar]) cs
    else c :: stripAux none cs
  | some p, c :: cs =>
    if isAsciiLetterChar c then stripAux none cs
    else stripAux (some (p ++ [c])) cs

/-- Strip all VT100 control sequences from a buffer (`switch.py` line 52). -/
def stripVT100 (s : List Char) : List Char := stripAux none s

/-- The shell-prompt suffix `'# '` checked by `recv_buffer.endswith('# ')`
(`switch.py` line 55). -/
def promptSuffix : List Char := ['#', ' ']

/-- Characters that are special in a Python regular expression.  `switch.py`
line 59 interpolates the command into a pattern unescaped, so only commands
free of these characters are matched literally by the echo-stripping
`re.sub`. -/
def isRegexMeta (c : Char) : Bool :=
  ['\\', '.', '^', '$', '*', '+', '?', '\x7b', '\x7d', '[', ']', '|', '(', ')'].contains c

/-- `re.sub(r"^" + command, "", recv_buffer)` (`switch.py` line 59): drop one
occurrence of the echoed command text from the start of the buffer.  The
command is interpolated into the pattern unescaped, so this literal prefix
drop models the source only for commands containing no regex metacharacter
(`isRegexMeta`): on such commands the pattern matches exactly the command
text at the start of the string, at most once.  `claim_C1` carries that
restriction as a hypothesis, and every concrete command below is
metacharacter-free (commands with metacharacters diverge: `a+` matches
greedily and `(` makes `re.sub` raise `re.error`, outside this model). -/
def stripEcho (command buffer : List Char) : List Char :=
  if command.isPrefixOf buffer then buffer.drop command.length else buffer

/-- Decide whether `t` is the tail of a prompt-line match: the regex
`\r\n.*?# $` requires everything after the `\r\n` to contain no `'\n'`
(`.` does not match newlines) and the buffer to end in `'# '`.  Since this is
applied only to buffers that end in `'# '` (the receive loop's exit guard),
`$` is exactly end-of-string here. -/
def promptLineTail (t : List Char) : Bool :=
  promptSuffix.isSuffixOf t && (t.take (t.length - 2)).all (fun c => c ≠ '\n')

/-- `re.sub(r"\r\n.*?# $", "", recv_buffer)` (`switch.py` line 60): delete
from the leftmost `\r\n` that is followed (newline-free) by the terminal
`'# '` through the end of the buffer. -/
def stripPromptLine : List Char → List Char
  | [] => []
  | c :: cs =>
    if c = '\r' && cs.take 1 = ['\n'] && promptLineTail (cs.drop 1) then []
    else c :: stripPromptLine cs

/-!
## The receive loop

`Switch.execute_command` (`switch.py` lines 42-62) sends the command and then
loops: each iteration receives one chunk, re-strips the accumulated buffer,
and exits when the stripped buffer ends with `'# '`.  The transport is
modelled as the list of results of successive `recv` calls:

* `RecvEvent.data s` — `recv` returned the bytes `s` (paramiko's `recv`
  returns the empty string once the channel's stream has closed, so a closed
  transport is an endless supply of `data []` events);
* `RecvEvent.timeoutEv` — `recv` raised `socket.timeout` because no data
  arrived within the timeout configured by `settimeout`.

The pair returned by `execute_command` is (outcome, events not yet consumed);
threading the leftover events into a later call models two consecutive
`execute_command` calls on the same pseudo-terminal stream.  The `Switch`
object itself has no other state that `execute_command` writes: the buffer is
a local variable and no flag of any kind is recorded.
-/

/-- One result of a `recv` call on the SSH pseudo-terminal. -/
inductive RecvEvent
  | data (s : List Char)
  | timeoutEv
  deriving DecidableEq, Repr

/-- Outcome of one `execute_command` call.  `timeoutErr` carries no payload:
the partially accumulated buffer is a local variable and is discarded when
`socket.timeout` propagates.  `running` means the while-loop is still waiting
on a further `recv` after consuming every supplied event. -/
inductive ExecOutcome
  | ok (output : List Char)
  | timeoutErr
  | running
  deriving DecidableEq, Repr

/-- The `while True` receive loop of `execute_command`, starting from an
already-stripped accumulated buffer. -/
def execLoop (command buffer : List Char) :
    List RecvEvent → ExecOutcome × List RecvEvent
  | [] => (ExecOutcome.running, [])
  | RecvEvent.timeoutEv :: rest => (ExecOutcome.timeoutErr, rest)
  | RecvEvent.data s :: rest =>
    let b := stripVT100 (buffer ++ s)
    if promptSuffix.isSuffixOf b then
      (ExecOutcome.ok (stripPromptLine (stripEcho command b)), rest)
    else
      execLoop command b rest

/-- `Switch.execute_command(command)` run against the given transport events:
`recv_buffer` starts empty, then the receive loop runs. -/
def execute_command (command : List Char) (events : List RecvEvent) :
    ExecOutcome × List RecvEvent :=
  execLoop command [] events

/-- First index (1-based number of chunks consumed) at which the stripped
concatenation of the received chunks ends with the shell prompt. -/
def firstPromptIndex (cs : List (List Char)) : Option Nat :=
  ((List.range cs.length).find? (fun j =>
      promptSuffix.isSuffixOf (stripVT100 ((cs.take (j + 1)).flatten)))).map (fun j => j + 1)

/-- Whether the buffer contains a CR-LF pair. -/
def containsCRLF : List Char → Bool
  | [] => false
  | '\r' :: '\n' :: _ => true
  | _ :: rest => containsCRLF rest

/-- Everything before the last CR-LF pair of the buffer (the buffer itself if
it has none). -/
def cutAtLastCRLF : List Char → List Char
  | [] => []
  | c :: cs =>
    if c = '\r' && cs.take 1 = ['\n'] && !containsCRLF (cs.drop 1) then []
    else c :: cutAtLastCRLF cs

/-- Modelled from the spec: "Removes the echoed command line from the start of
the output and the trailing prompt line from the end, returning only the
content in between."  The echoed command line is the command followed by its
CR-LF terminator; the trailing prompt line is everything from the final CR-LF
on.  This definition follows the specification's words and serves only as the
comparison point for the C1/C2 refinement check. -/
def specContentBetween (command b : List Char) : List Char :=
  cutAtLastCRLF
    (if (command ++ ['\r', '\n']).isPrefixOf b then b.drop (command.length + 2) else b)

/-!
## Bitmap port-list codec (`port.py`, `get_port_list_enabled_ports`)

Byte strings are modelled as lists of `Nat`s below 256 (one per byte).
-/

/-- Ports contributed by the byte at 0-based position `byte_count`
(`port.py` lines 14-17): the inner `for bit in range(0, 8)` loop; bit 0 is
the most significant bit, and a set bit at position `bit` contributes port
`byte_count * 8 + (bit + 1)`. -/
def portsOfByte (byte_count byte : Nat) : List Nat :=
  (List.range 8).filterMap (fun bit =>
    if byte &&& (1 <<< (7 - bit)) ≠ 0 then some (byte_count * 8 + (bit + 1)) else none)

/-- Outer loop over the bytes of the port list, with the running
`byte_count` counter. -/
def get_port_list_go (byte_count : Nat) : List Nat → List Nat
  | [] => []
  | byte :: rest => portsOfByte byte_count byte ++ get_port_list_go (byte_count + 1) rest

/-- `get_port_list_enabled_ports` (`port.py` lines 6-19): the 1-based port
numbers whose bit is set in the packed port-list bitmap. -/
def get_port_list_enabled_ports (port_list : List Nat) : List Nat :=
  get_port_list_go 0 port_list

/-!
## Port identifiers (`port.py`, `Port.__init__` / `Port.identifier`)

A port identifier string is one letter followed by the decimal rendering of a
number; it is modelled as the pair of the letter and the number (the decimal
print/parse between `int(identifier[1:])` and `unicode(...)` is elided).
-/

/-- The `string.ascii_uppercase` constant. -/
def ascii_uppercase : List Char := "ABCDEFGHIJKLMNOPQRSTUVWXYZ".toList

/-- `string.ascii_uppercase.index(identifier[0].upper())` (`port.py` line
33), for characters whose upper-case form is an uppercase letter. -/
def uppercase_index (c : Char) : Nat := c.toUpper.toNat - 'A'.toNat

/-- `Port.__init__` given an identifier (`port.py` lines 32-35):
`base_port = unit * 24 + port`. -/
def port_base_port (letter : Char) (n : Nat) : Nat :=
  uppercase_index letter * 24 + n

/-- The `Port.identifier` property (`port.py` line 69):
`string.ascii_uppercase[base_port / 24] + unicode(base_port % 24)` with
Python 2 integer division (out-of-range indexing, which raises in Python,
is modelled with a default and never reached in the theorems below). -/
def port_identifier (base_port : Nat) : Char × Nat :=
  (ascii_uppercase.getD (base_port / 24) 'A', base_port % 24)

/-!
## Name validation (`interface.py` `_set_name`, `port.py` `_set_alias`)
-/

/-- Membership in `string.ascii_letters + string.digits`. -/
def isLegalNameChar (c : Char) : Bool :=
  isAsciiLetterChar c || isDigitChar c

/-- `Interface._set_name` (`interface.py` lines 44-54): the assert checks
every character of `value` before anything is sent; the result is the list
of CLI command lines issued and whether the call succeeded (`false` models
the `AssertionError` propagating, with nothing issued). -/
def interface_set_name (identifier value : List Char) : List (List Char) × Bool :=
  if value.all isLegalNameChar then
    (["config".toList,
      "interface ".toList ++ identifier ++ " name ".toList ++ value,
      "exit".toList], true)
  else ([], false)

/-- `Port._set_alias` (`port.py` lines 78-86): the assert checks every
character of `value` before the SNMP set; the result is the list of
`(ifAlias ifindex, value)` SNMP set operations issued and whether the call
succeeded. -/
def port_set_alias (ifindex : Nat) (value : List Char) : List (Nat × List Char) × Bool :=
  if value.all isLegalNameChar then ([(ifindex, value)], true)
  else ([], false)

/-!
## Range-list text codec (`vlan.py` lines 163-197, `interface.py` lines 112-133)
-/

/-- Python `str.split(sep)` for a one-character separator: splits at every
occurrence; always returns at least one piece, and `"".split(sep) == ['']`. -/
def splitOnChar (sep : Char) : List Char → List (List Char)
  | [] => [[]]
  | c :: cs =>
    if c = sep then [] :: splitOnChar sep cs
    else
      match splitOnChar sep cs with
      | [] => [[c]]
      | piece :: pieces => (c :: piece) :: pieces

/-- `re.split('([a-zA-Z]+)', s)[1]` (`vlan.py` line 185): the first maximal
run of ASCII letters in `s`; `none` when `s` contains no letter, in which
case the Python list has a single element and the `[1]` indexing raises
`IndexError`. -/
def firstLetterRun : List Char → Option (List Char)
  | [] => none
  | c :: cs =>
    if isAsciiLetterChar c then some (c :: cs.takeWhile isAsciiLetterChar)
    else firstLetterRun cs

/-- Value of a string of decimal digits. -/
def digitsToNat (s : List Char) : Nat :=
  s.foldl (fun acc c => acc * 10 + (c.toNat - 48)) 0

/-- Python `int(s)` on the non-negative decimal numerals this code feeds it:
`none` models the `ValueError` raised on anything else (signs and literal
whitespace do not occur in these inputs and are not modelled). -/
def pyInt (s : List Char) : Option Nat :=
  if !s.isEmpty && s.all isDigitChar then some (digitsToNat s) else none

/-- Python 2 `str(n)` for a natural number. -/
def natToDecimal (n : Nat) : List Char := Nat.toDigits 10 n

/-- `range(a, b + 1)`: the inclusive range used by the range expansion. -/
def rangeIncl (a b : Nat) : List Nat := (List.range (b + 1 - a)).map (fun k => a + k)

/-- Failure modes of the range-list decoders: the explicit
"Invalid ... range format encountered." exception, the `IndexError` from the
`[1]` indexing on a letter-less range, and the `ValueError` from `int()`. -/
inductive RangeError
  | malformedRange
  | indexError
  | valueError
  deriving DecidableEq, Repr

deriving instance DecidableEq for Except

/-- One comma-separated piece of
`VLAN._interface_list_from_interface_list_string` (`vlan.py` lines 173-195):
a single identifier, or a hyphenated range expanded by prepending the alpha
component of the first endpoint to each number of the numeric range. -/
def interfacePiece (piece : List Char) : Except RangeError (List (List Char)) :=
  match splitOnChar '-' piece with
  | [single] => Except.ok [single]
  | [first, last] =>
    match firstLetterRun first with
    | none => Except.error RangeError.indexError
    | some alpha =>
      match pyInt (first.drop alpha.length), pyInt (last.drop alpha.length) with
      | some a, some b =>
        Except.ok ((rangeIncl a b).map (fun i => alpha ++ natToDecimal i))
      | _, _ => Except.error RangeError.valueError
  | _ => Except.error RangeError.malformedRange

/-- Resolve the pieces in order, propagating the first failure (the Python
loop raises at the first bad piece, discarding earlier results). -/
def exceptPieces {α : Type} (f : List Char → Except RangeError (List α)) :
    List (List Char) → Except RangeError (List α)
  | [] => Except.ok []
  | piece :: rest =>
    match f piece with
    | Except.error e => Except.error e
    | Except.ok items =>
      match exceptPieces f rest with
      | Except.error e => Except.error e
      | Except.ok more => Except.ok (items ++ more)

/-- `VLAN._interface_list_from_interface_list_string` (`vlan.py` lines
163-197): split on commas, resolve each range piece. -/
def interface_list_from_string (s : List Char) : Except RangeError (List (List Char)) :=
  exceptPieces interfacePiece (splitOnChar ',' s)

/-- One comma-separated piece of the numeric VLAN-range decoder in
`Interface._get_tagged_vlans` (`interface.py` lines 115-131). -/
def vlanPiece (piece : List Char) : Except RangeError (List Nat) :=
  match splitOnChar '-' piece with
  | [single] =>
    match pyInt single with
    | some v => Except.ok [v]
    | none => Except.error RangeError.valueError
  | [first, last] =>
    match pyInt first, pyInt last with
    | some a, some b => Except.ok (rangeIncl a b)
    | _, _ => Except.error RangeError.valueError
  | _ => Except.error RangeError.malformedRange

/-- The VLAN-range list decoder of `Interface._get_tagged_vlans`
(`interface.py` lines 112-133). -/
def tagged_vlans_from_string (s : List Char) : Except RangeError (List Nat) :=
  exceptPieces vlanPiece (splitOnChar ',' s)

/-- Modelled from the spec (§4.4 RangeListCodec): one piece is either a
single item, or a two-component inclusive range expanded using the shared
non-numeric prefix of the first component and the numeric bounds; any other
component count is a `MalformedRange` failure. -/
def specRangePiece (piece : List Char) : Except RangeError (List (List Char)) :=
  match splitOnChar '-' piece with
  | [single] => Except.ok [single]
  | [first, last] =>
    match pyInt (first.drop (first.takeWhile (fun c => !isDigitChar c)).length),
        pyInt (last.drop (first.takeWhile (fun c => !isDigitChar c)).length) with
    | some a, some b =>
      Except.ok ((rangeIncl a b).map
        (fun i => first.takeWhile (fun c => !isDigitChar c) ++ natToDecimal i))
    | _, _ => Except.error RangeError.valueError
  | _ => Except.error RangeError.malformedRange

/-- Modelled from the spec (§4.4): split on `,` and resolve each piece. -/
def specRangeDecode (s : List Char) : Except RangeError (List (List Char)) :=
  exceptPieces specRangePiece (splitOnChar ',' s)

/-- A hyphenated piece is well formed when its two endpoints share a
non-empty letter run followed by non-empty digit strings — the shape the
specification's range clause describes (e.g. `"A1-A4"`).  Single items and
pieces of three or more components are unconstrained. -/
def wfPiece (piece : List Char) : Bool :=
  match splitOnChar '-' piece with
  | [first, last] =>
    !(first.takeWhile isAsciiLetterChar).isEmpty &&
      (!(first.dropWhile isAsciiLetterChar).isEmpty &&
        (first.dropWhile isAsciiLetterChar).all isDigitChar) &&
      (last.take (first.takeWhile isAsciiLetterChar).length ==
        first.takeWhile isAsciiLetterChar) &&
      (!(last.drop (first.takeWhile isAsciiLetterChar).length).isEmpty &&
        (last.drop (first.takeWhile isAsciiLetterChar).length).all isDigitChar)
  | _ => true

/-!
## Error surfacing on VLAN mutations (`vlan.py`)
-/

/-- Result of one of the VLAN `add_*` methods: either a normal return or a
plain `Exception` with the given message. -/
inductive AddOutcome
  | returned
  | raisedException (msg : List Char)
  deriving DecidableEq, Repr

/-- Python's substring test `needle in haystack`: some suffix of the
haystack starts with the needle. -/
def containsSub (needle : List Char) : List Char → Bool
  | [] => needle.isEmpty
  | c :: cs => needle.isPrefixOf (c :: cs) || containsSub needle cs

/-- The device output fragment `"bad IP address"` checked by substring
membership (`vlan.py` line 89). -/
def badIpMsg : List Char := "bad IP address".toList

/-- The device output `"The IP address (or subnet) <addr> already exists."`
compared against verbatim (`vlan.py` line 93). -/
def alreadyExistsMsg (addr : List Char) : List Char :=
  "The IP address (or subnet) ".toList ++ addr ++ " already exists.".toList

/-- `VLAN.add_ipv4_address` (`vlan.py` lines 76-95) as a function of the
text the `vlan <vid> ip address <addr>` command returned. -/
def vlan_add_ipv4_outcome (addr add_output : List Char) : AddOutcome :=
  if containsSub badIpMsg add_output then
    AddOutcome.raisedException
      ("IPv4 address ".toList ++ addr ++ " deemed \"bad\" by switch.".toList)
  else if add_output = alreadyExistsMsg addr then
    AddOutcome.raisedException
      ("The IPv4 address ".toList ++ addr ++
        " could not be configured because it was already configured for this VLAN.".toList)
  else AddOutcome.returned

/-- `VLAN.add_tagged_interface` (`vlan.py` lines 213-219): the command
output is bound to `add_output` and never inspected; the method always
returns normally, whatever the device said. -/
def vlan_add_tagged_outcome (_add_output : List Char) : AddOutcome :=
  AddOutcome.returned

/-!
## Stripping commutes with buffer accumulation

The loop re-strips its already-stripped buffer after appending each chunk.
The lemmas below show that this iterated stripping equals stripping the
concatenation of all raw chunks once, which lets the loop be characterised
declaratively.
-/

/-- Invariant of the automaton state: a pending candidate sequence is an ESC
followed only by non-letters. -/
def pendingOK : Option (List Char) → Prop
  | none => True
  | some p => ∃ t, p = escChar :: t ∧ ∀ a ∈ t, isAsciiLetterChar a = false

theorem stripAux_none_nil : stripAux none [] = [] := rfl

theorem stripAux_some_nil (p : List Char) : stripAux (some p) [] = p := rfl

theorem stripAux_none_cons (c : Char) (cs : List Char) :
    stripAux none (c :: cs) =
      if c = escChar then stripAux (some [escChar]) cs
      else c :: stripAux none cs := rfl

theorem stripAux_some_cons (p : List Char) (c : Char) (cs : List Char) :
    stripAux (some p) (c :: cs) =
      if isAsciiLetterChar c then stripAux none cs
      else stripAux (some (p ++ [c])) cs := rfl

theorem stripAux_grow (t : List Char) (hn : ∀ a ∈ t, isAsciiLetterChar a = false) :
    ∀ (p rest : List Char), stripAux (some p) (t ++ rest) = stripAux (some (p ++ t)) rest := by
  induction t with
  | nil => intro p rest; rw [List.nil_append, List.append_nil]
  | cons a t ih =>
    intro p rest
    have ha : isAsciiLetterChar a = false := hn a (List.mem_cons_self a t)
    have ht : ∀ x ∈ t, isAsciiLetterChar x = false := fun x hx => hn x (List.mem_cons_of_mem a hx)
    rw [List.cons_append, stripAux_some_cons, if_neg (by simp [ha]),
      ih ht (p ++ [a]) rest, List.append_assoc, List.singleton_append]

theorem stripAux_resume (p y : List Char) (hp : pendingOK (some p)) :
    stripAux none (p ++ y) = stripAux (some p) y := by
  obtain ⟨t, rfl, hn⟩ := hp
  rw [List.cons_append, stripAux_none_cons, if_pos rfl, stripAux_grow t hn [escChar] y,
    List.singleton_append]

theorem stripAux_of_stripAux (x : List Char) :
    ∀ (st : Option (List Char)) (y : List Char), pendingOK st →
      stripAux st (x ++ y) = stripAux none (stripAux st x ++ y) := by
  induction x with
  | nil =>
    intro st y hst
    cases st with
    | none => rw [List.nil_append, stripAux_none_nil, List.nil_append]
    | some p => rw [List.nil_append, stripAux_some_nil, stripAux_resume p y hst]
  | cons c cs ih =>
    intro st y hst
    cases st with
    | none =>
      by_cases hc : c = escChar
      · subst hc
        rw [List.cons_append, stripAux_none_cons, if_pos rfl, stripAux_none_cons, if_pos rfl]
        exact ih (some [escChar]) y ⟨[], rfl, by simp⟩
      · rw [List.cons_append, stripAux_none_cons, if_neg hc, stripAux_none_cons, if_neg hc,
          List.cons_append, stripAux_none_cons, if_neg hc, ih none y trivial]
    | some p =>
      by_cases hc : isAsciiLetterChar c = true
      · rw [List.cons_append, stripAux_some_cons, if_pos hc, stripAux_some_cons, if_pos hc]
        exact ih none y trivial
      · rw [List.cons_append, stripAux_some_cons, if_neg hc, stripAux_some_cons, if_neg hc]
        obtain ⟨t, rfl, hn⟩ := hst
        refine ih (some ((escChar :: t) ++ [c])) y ⟨t ++ [c], by simp, ?_⟩
        intro a ha
        rcases List.mem_append.mp ha with h | h
        · exact hn a h
        · simp only [List.mem_singleton] at h
          subst h
          simpa using hc

/-- Re-stripping an already-stripped buffer with a new chunk appended is the
same as stripping the raw concatenation once. -/
theorem stripVT100_restrip (x y : List Char) :
    stripVT100 (stripVT100 x ++ y) = stripVT100 (x ++ y) :=
  (stripAux_of_stripAux x none y trivial).symm

theorem find?_map_add_one (l : List Nat) (f g : Nat → Bool) (h : ∀ j, f (j + 1) = g j) :
    (l.map (fun j => j + 1)).find? f = (l.find? g).map (fun j => j + 1) := by
  induction l with
  | nil => rfl
  | cons a l ih =>
    cases hg : g a with
    | true =>
      have hf : f (a + 1) = true := by rw [h a, hg]
      rw [List.map_cons, List.find?_cons_of_pos _ hf, List.find?_cons_of_pos _ hg]
      rfl
    | false =>
      have hf : ¬ (f (a + 1) = true) := by rw [h a, hg]; exact Bool.false_ne_true
      have hg' : ¬ (g a = true) := by rw [hg]; exact Bool.false_ne_true
      rw [List.map_cons, List.find?_cons_of_neg _ hf, List.find?_cons_of_neg _ hg', ih]

theorem execLoop_eq_firstPrompt (cs : List (List Char)) :
    ∀ (p command : List Char),
      execLoop command (stripVT100 p) (cs.map RecvEvent.data) =
        match (List.range cs.length).find? (fun j =>
            promptSuffix.isSuffixOf (stripVT100 (p ++ (cs.take (j + 1)).flatten))) with
        | some j =>
          (ExecOutcome.ok (stripPromptLine (stripEcho command
              (stripVT100 (p ++ (cs.take (j + 1)).flatten)))),
            (cs.map RecvEvent.data).drop (j + 1))
        | none => (ExecOutcome.running, []) := by
  induction cs with
  | nil => intro p command; rfl
  | cons c cs ih =>
    intro p command
    have hb : stripVT100 (stripVT100 p ++ c) = stripVT100 (p ++ c) :=
      stripVT100_restrip p c
    have htake0 : ((c :: cs).take (0 + 1)).flatten = c := by simp
    have hstep : execLoop command (stripVT100 p) ((c :: cs).map RecvEvent.data) =
        (if promptSuffix.isSuffixOf (stripVT100 (p ++ c)) then
          (ExecOutcome.ok (stripPromptLine (stripEcho command (stripVT100 (p ++ c)))),
            cs.map RecvEvent.data)
        else execLoop command (stripVT100 (p ++ c)) (cs.map RecvEvent.data)) := by
      rw [← hb]; rfl
    have hrange : List.range (c :: cs).length =
        0 :: (List.range cs.length).map (fun j => j + 1) := by
      show List.range (cs.length + 1) = _
      rw [List.range_succ_eq_map]
    by_cases hsfx : promptSuffix.isSuffixOf (stripVT100 (p ++ c)) = true
    · rw [hstep, if_pos hsfx, hrange]
      simp [List.find?_cons, htake0, hsfx]
    · have hsfxf : promptSuffix.isSuffixOf (stripVT100 (p ++ c)) = false := by
        cases hx : promptSuffix.isSuffixOf (stripVT100 (p ++ c)) with
        | true => exact absurd hx hsfx
        | false => rfl
      have hmap : (((List.range cs.length).map (fun j => j + 1)).find? (fun k =>
            promptSuffix.isSuffixOf (stripVT100 (p ++ ((c :: cs).take (k + 1)).flatten)))) =
          ((List.range cs.length).find? (fun j =>
            promptSuffix.isSuffixOf (stripVT100 ((p ++ c) ++ (cs.take (j + 1)).flatten)))).map
            (fun j => j + 1) :=
        find?_map_add_one _ _ _ (fun j => by
          simp only [List.take_succ_cons, List.flatten_cons, List.append_assoc])
      rw [hstep, if_neg hsfx, ih (p ++ c) command, hrange]
      rw [List.find?_cons]
      simp only [htake0, hsfxf]
      rw [hmap]
      cases hfind : (List.range cs.length).find? (fun j =>
          promptSuffix.isSuffixOf (stripVT100 ((p ++ c) ++ (cs.take (j + 1)).flatten))) with
      | none => rfl
      | some j =>
        simp [List.append_assoc]

/-- C1 (amended): for every command string free of regex metacharacters (so
that the echo-stripping `re.sub` treats the command literally — commands with
metacharacters are matched as regexes by the source and are outside this
model), `execute_command` accumulates received chunks until the buffer —
equal, by `stripVT100_restrip`, to the stripped concatenation of all chunks
received so far — first ends with the prompt suffix `'# '`; it then returns
that stripped buffer with the echoed command text removed from the start
(the line terminator that followed the echo is retained) and with the
trailing prompt line, from the final line break on, removed from the end.
If no prefix of the stream ever shows the prompt, the loop is still awaiting
data after all events are consumed. -/
theorem claim_C1 (command : List Char) (cs : List (List Char))
    (_hcmd : command.all (fun c => !isRegexMeta c) = true) :
    execute_command command (cs.map RecvEvent.data) =
      match firstPromptIndex cs with
      | some k =>
        (ExecOutcome.ok (stripPromptLine (stripEcho command (stripVT100 ((cs.take k).flatten)))),
          (cs.map RecvEvent.data).drop k)
      | none => (ExecOutcome.running, []) := by
  have h := execLoop_eq_firstPrompt cs [] command
  simp only [List.nil_append] at h
  have h0 : execute_command command (cs.map RecvEvent.data) =
      execLoop command (stripVT100 []) (cs.map RecvEvent.data) := rfl
  rw [h0, h]
  simp only [firstPromptIndex]
  cases hfind : (List.range cs.length).find? (fun j =>
      promptSuffix.isSuffixOf (stripVT100 ((cs.take (j + 1)).flatten))) with
  | none => rfl
  | some j => rfl

/-- Witness for C1 at the metacharacter-free command `"show time"` and a
one-chunk stream. -/
theorem claim_C1_witness :
    execute_command "show time".toList
        (["\x1b[2Kshow time\r\nTue Jan 1\r\nswitch# ".toList].map RecvEvent.data) =
      match firstPromptIndex ["\x1b[2Kshow time\r\nTue Jan 1\r\nswitch# ".toList] with
      | some k =>
        (ExecOutcome.ok (stripPromptLine (stripEcho "show time".toList
            (stripVT100 ((["\x1b[2Kshow time\r\nTue Jan 1\r\nswitch# ".toList].take k).flatten)))),
          (["\x1b[2Kshow time\r\nTue Jan 1\r\nswitch# ".toList].map RecvEvent.data).drop k)
      | none => (ExecOutcome.running, []) :=
  claim_C1 "show time".toList ["\x1b[2Kshow time\r\nTue Jan 1\r\nswitch# ".toList] (by decide)

/-- C1 counterexample: the claim says the result is exactly the content
between the echoed command line and the trailing prompt line, but the code
removes only the command text itself, so the line terminator that followed
the echo survives at the front of the result: on the stream
`"\x1b[2Kshow time\r\nTue Jan 1\r\nswitch# "` the code returns
`"\r\nTue Jan 1"` while the content in between is `"Tue Jan 1"`. -/
theorem claim_C1_counterexample :
    (execute_command "show time".toList
        [RecvEvent.data "\x1b[2Kshow time\r\nTue Jan 1\r\nswitch# ".toList]).1 =
      ExecOutcome.ok "\r\nTue Jan 1".toList ∧
    specContentBetween "show time".toList
        (stripVT100 "\x1b[2Kshow time\r\nTue Jan 1\r\nswitch# ".toList) =
      "Tue Jan 1".toList ∧
    "\r\nTue Jan 1".toList ≠ "Tue Jan 1".toList := by
  decide

/-- C2 (amended): on the stream `"\x1b[2Kshow vlans\r\nVLAN 1\r\nswitch# "`,
executing `"show vlans"` returns `"\r\nVLAN 1"`: the ANSI escape sequence,
the echoed command text and the trailing prompt line are removed, but the
line terminator that followed the echo is retained at the front. -/
theorem claim_C2 :
    execute_command "show vlans".toList
        [RecvEvent.data "\x1b[2Kshow vlans\r\nVLAN 1\r\nswitch# ".toList] =
      (ExecOutcome.ok "\r\nVLAN 1".toList, []) := by
  decide

/-- C2 counterexample: the claim says the result is exactly `"VLAN 1"` with
no surrounding line-terminator residue; the code returns `"\r\nVLAN 1"`. -/
theorem claim_C2_counterexample :
    (execute_command "show vlans".toList
        [RecvEvent.data "\x1b[2Kshow vlans\r\nVLAN 1\r\nswitch# ".toList]).1 ≠
      ExecOutcome.ok "VLAN 1".toList := by
  decide

theorem execLoop_timeout (ds : List (List Char)) :
    ∀ (p command : List Char) (rest : List RecvEvent),
      (∀ k, k < ds.length + 1 →
        promptSuffix.isSuffixOf (stripVT100 (p ++ (ds.take k).flatten)) = false) →
      execLoop command (stripVT100 p) (ds.map RecvEvent.data ++ RecvEvent.timeoutEv :: rest) =
        (ExecOutcome.timeoutErr, rest) := by
  induction ds with
  | nil => intro p command rest _; rfl
  | cons c ds ih =>
    intro p command rest hno
    have htake0 : ((c :: ds).take (0 + 1)).flatten = c := by simp
    have hb : stripVT100 (stripVT100 p ++ c) = stripVT100 (p ++ c) :=
      stripVT100_restrip p c
    have hsfxf : promptSuffix.isSuffixOf (stripVT100 (p ++ c)) = false := by
      have := hno 1 (by simp only [List.length_cons]; omega)
      simpa [htake0] using this
    have hstep : execLoop command (stripVT100 p)
        ((c :: ds).map RecvEvent.data ++ RecvEvent.timeoutEv :: rest) =
        (if promptSuffix.isSuffixOf (stripVT100 (p ++ c)) then
          (ExecOutcome.ok (stripPromptLine (stripEcho command (stripVT100 (p ++ c)))),
            ds.map RecvEvent.data ++ RecvEvent.timeoutEv :: rest)
        else execLoop command (stripVT100 (p ++ c))
          (ds.map RecvEvent.data ++ RecvEvent.timeoutEv :: rest)) := by
      rw [← hb]; rfl
    rw [hstep, if_neg (by rw [hsfxf]; exact Bool.false_ne_true)]
    refine ih (p ++ c) command rest ?_
    intro k hk
    have := hno (k + 1) (by simpa using hk)
    simpa [List.append_assoc] using this

/-- C3 (amended): when the transport never yields a stripped buffer ending in
the prompt suffix before the timeout fires, `execute_command` fails with the
timeout error (the propagated `socket.timeout`), and the partially
accumulated buffer is discarded: the outcome carries no data and the
remainder of the stream is untouched.  No flag of any kind is recorded on the
session — see `claim_C3_counterexample`. -/
theorem claim_C3 (command : List Char) (ds : List (List Char)) (rest : List RecvEvent)
    (hno : ∀ k, k < ds.length + 1 →
      promptSuffix.isSuffixOf (stripVT100 ((ds.take k).flatten)) = false) :
    execute_command command (ds.map RecvEvent.data ++ RecvEvent.timeoutEv :: rest) =
      (ExecOutcome.timeoutErr, rest) := by
  have h := execLoop_timeout ds [] command rest (by simpa using hno)
  simpa using h

/-- Witness for C3 at a concrete input: a transport that sends `"abc"` and
then times out. -/
theorem claim_C3_witness :
    execute_command "a".toList
        (["abc".toList].map RecvEvent.data ++ RecvEvent.timeoutEv :: []) =
      (ExecOutcome.timeoutErr, []) :=
  claim_C3 "a".toList ["abc".toList] [] (by decide)

/-- C3 counterexample: the claim says the session is left flagged unusable
for subsequent execute calls, but `execute_command` writes no such flag: the
only state the call leaves behind is the unread remainder of the stream, and
a second `execute_command` on that same stream proceeds normally and
succeeds. -/
theorem claim_C3_counterexample :
    (execute_command "a".toList
        [RecvEvent.timeoutEv, RecvEvent.data "b\r\nout\r\nsw# ".toList]).1 =
      ExecOutcome.timeoutErr ∧
    execute_command "b".toList
        (execute_command "a".toList
          [RecvEvent.timeoutEv, RecvEvent.data "b\r\nout\r\nsw# ".toList]).2 =
      (ExecOutcome.ok "\r\nout".toList, []) := by
  decide

/-- C4: when the stream closes before a prompt is seen, `recv` returns the
empty string on every call (paramiko's end-of-stream behaviour), so the
receive loop makes no progress and never terminates: after any number `n` of
empty reads the call is still inside its `while True` loop.  No
`ConnectionLost` error exists anywhere in the code, so `execute_command`
never fails in this situation — it loops, which is exactly what the claim
rules out. -/
theorem claim_C4 (command : List Char) (n : Nat) :
    execute_command command (List.replicate n (RecvEvent.data [])) =
      (ExecOutcome.running, []) := by
  suffices h : ∀ (m : Nat) (q : List Char),
      promptSuffix.isSuffixOf (stripVT100 q) = false →
      execLoop command (stripVT100 q) (List.replicate m (RecvEvent.data [])) =
        (ExecOutcome.running, []) by
    have h0 : execute_command command (List.replicate n (RecvEvent.data [])) =
        execLoop command (stripVT100 []) (List.replicate n (RecvEvent.data [])) := rfl
    rw [h0]
    exact h n [] (by decide)
  intro m
  induction m with
  | zero => intro q _; rfl
  | succ m ih =>
    intro q hq
    have hb : stripVT100 (stripVT100 q ++ []) = stripVT100 (q ++ []) :=
      stripVT100_restrip q []
    have hstep : execLoop command (stripVT100 q)
        (List.replicate (m + 1) (RecvEvent.data [])) =
        (if promptSuffix.isSuffixOf (stripVT100 (q ++ [])) then
          (ExecOutcome.ok (stripPromptLine (stripEcho command (stripVT100 (q ++ [])))),
            List.replicate m (RecvEvent.data []))
        else execLoop command (stripVT100 (q ++ []))
          (List.replicate m (RecvEvent.data []))) := by
      rw [← hb, List.replicate_succ]; rfl
    have hq' : promptSuffix.isSuffixOf (stripVT100 (q ++ [])) = false := by
      rw [List.append_nil]; exact hq
    rw [hstep, if_neg (by rw [hq']; exact Bool.false_ne_true)]
    exact ih (q ++ []) hq'

/-!
## Bitmap port-list codec
-/

theorem and_shift_ne_zero_iff_testBit (x k : Nat) :
    (x &&& (1 <<< k) ≠ 0) ↔ Nat.testBit x k = true := by
  rw [Nat.shiftLeft_eq, one_mul, Nat.and_two_pow]
  cases h : Nat.testBit x k with
  | true => simp [Nat.ne_of_gt (Nat.two_pow_pos k)]
  | false => simp

theorem mem_portsOfByte (i byte p : Nat) :
    p ∈ portsOfByte i byte ↔
      ∃ b, b < 8 ∧ byte &&& (1 <<< (7 - b)) ≠ 0 ∧ p = i * 8 + (b + 1) := by
  simp only [portsOfByte, List.mem_filterMap, List.mem_range]
  constructor
  · rintro ⟨b, hb, hf⟩
    by_cases hc : byte &&& (1 <<< (7 - b)) ≠ 0
    · rw [if_pos hc] at hf
      exact ⟨b, hb, hc, (Option.some_inj.mp hf).symm⟩
    · rw [if_neg hc] at hf
      cases hf
  · rintro ⟨b, hb, hc, rfl⟩
    exact ⟨b, hb, by rw [if_pos hc]⟩

theorem mem_get_port_list_go (l : List Nat) :
    ∀ (off p : Nat),
      p ∈ get_port_list_go off l ↔
        ∃ i b, i < l.length ∧ b < 8 ∧
          (l.getD i 0) &&& (1 <<< (7 - b)) ≠ 0 ∧ p = (off + i) * 8 + (b + 1) := by
  induction l with
  | nil => intro off p; simp [get_port_list_go]
  | cons byte rest ih =>
    intro off p
    simp only [get_port_list_go, List.mem_append, mem_portsOfByte, ih (off + 1),
      List.length_cons]
    constructor
    · rintro (⟨b, hb, hc, rfl⟩ | ⟨i, b, hi, hb, hc, rfl⟩)
      · exact ⟨0, b, by omega, hb, by simpa using hc, by omega⟩
      · exact ⟨i + 1, b, by omega, hb, by simpa using hc, by ring_nf⟩
    · rintro ⟨i, b, hi, hb, hc, rfl⟩
      cases i with
      | zero =>
        left
        exact ⟨b, hb, by simpa using hc, by omega⟩
      | succ i =>
        right
        exact ⟨i, b, by omega, hb, by simpa using hc, by ring_nf⟩

/-- C5: decoding a port-list bitmap yields exactly the ports `i*8 + b + 1`
over all byte positions `i` (0-based) and bit positions `b` (0 = most
significant) whose bit is set, and no others. -/
theorem claim_C5 (port_list : List Nat) (p : Nat) :
    p ∈ get_port_list_enabled_ports port_list ↔
      ∃ i b, i < port_list.length ∧ b < 8 ∧
        Nat.testBit (port_list.getD i 0) (7 - b) = true ∧ p = i * 8 + (b + 1) := by
  have h := mem_get_port_list_go port_list 0 p
  simp only [get_port_list_enabled_ports, h, Nat.zero_add,
    and_shift_ne_zero_iff_testBit]

/-!
## Port identifier round trip
-/

/-- C9 (amended): for identifiers consisting of one uppercase letter and a
number `n` with `1 ≤ n ≤ 23`, `Port.__init__`'s `unit * 24 + port` and the
`identifier` property's `(base_port / 24, base_port % 24)` are mutually
inverse.  At `n = 24` the round trip fails — see
`claim_C9_counterexample`. -/
theorem claim_C9 (letter : Char) (hl : letter ∈ ascii_uppercase) (n : Nat)
    (hn : n < 24) (h1 : 1 ≤ n) :
    port_identifier (port_base_port letter n) = (letter, n) := by
  revert letter n
  decide

/-- Witness for C9 at the identifier `"C5"`. -/
theorem claim_C9_witness :
    port_identifier (port_base_port 'C' 5) = ('C', 5) :=
  claim_C9 'C' (by decide) 5 (by decide) (by decide)

/-- C9 counterexample: the claim includes `n = 24`, but `"A24"` maps to
`base_port = 24`, which the `identifier` property renders as `"B0"`:
`24 / 24 = 1` selects the letter `B` and `24 % 24 = 0` the number `0`. -/
theorem claim_C9_counterexample :
    port_identifier (port_base_port 'A' 24) = ('B', 0) ∧
    (('B', 0) : Char × Nat) ≠ ('A', 24) := by
  decide

/-!
## Name validation happens before any device traffic
-/

/-- C10: a name containing any character outside the ASCII letters and
digits makes `Interface._set_name` and `Port._set_alias` fail their assert:
no CLI command and no SNMP set is issued (the returned traffic lists are
empty), so the device state is unchanged. -/
theorem claim_C10 (identifier value : List Char) (ifindex : Nat)
    (hbad : ∃ c ∈ value, isLegalNameChar c = false) :
    interface_set_name identifier value = ([], false) ∧
    port_set_alias ifindex value = ([], false) := by
  have hall : ¬ (value.all isLegalNameChar = true) := by
    rw [List.all_eq_true]
    intro hforall
    obtain ⟨c, hc, hfalse⟩ := hbad
    rw [hforall c hc] at hfalse
    cases hfalse
  constructor
  · rw [interface_set_name, if_neg hall]
  · rw [port_set_alias, if_neg hall]

/-- Witness for C10 at the name `"a b"` (contains a space). -/
theorem claim_C10_witness :
    interface_set_name "A1".toList "a b".toList = ([], false) ∧
    port_set_alias 3 "a b".toList = ([], false) :=
  claim_C10 "A1".toList "a b".toList 3 ⟨' ', by decide, by decide⟩

/-!
## Range-list codec refinement

On the piece shape the specification's range clause describes (a shared
non-empty letter run followed by digits, e.g. `"A1-A4"`), the code's
range expansion computes the specification's.
-/

theorem letter_not_digit {c : Char} (h : isAsciiLetterChar c = true) :
    isDigitChar c = false := by
  cases hd : isDigitChar c with
  | false => rfl
  | true =>
    exfalso
    simp only [isAsciiLetterChar, Bool.or_eq_true, Bool.and_eq_true,
      decide_eq_true_eq] at h
    simp only [isDigitChar, Bool.and_eq_true, decide_eq_true_eq] at hd
    omega

theorem digit_not_letter {c : Char} (h : isDigitChar c = true) :
    isAsciiLetterChar c = false := by
  cases hl : isAsciiLetterChar c with
  | false => rfl
  | true =>
    exfalso
    simp only [isAsciiLetterChar, Bool.or_eq_true, Bool.and_eq_true,
      decide_eq_true_eq] at hl
    simp only [isDigitChar, Bool.and_eq_true, decide_eq_true_eq] at h
    omega

theorem takeWhile_append_all (p : Char → Bool) (A : List Char)
    (hA : ∀ a ∈ A, p a = true) (D : List Char) :
    (A ++ D).takeWhile p = A ++ D.takeWhile p := by
  induction A with
  | nil => simp
  | cons a A ih =>
    rw [List.cons_append, List.takeWhile_cons_of_pos (hA a (List.mem_cons_self a A)),
      ih (fun x hx => hA x (List.mem_cons_of_mem a hx)), List.cons_append]

theorem firstLetterRun_cons (c : Char) (cs : List Char) :
    firstLetterRun (c :: cs) =
      if isAsciiLetterChar c then some (c :: cs.takeWhile isAsciiLetterChar)
      else firstLetterRun cs := rfl

theorem firstLetterRun_of_split (A D : List Char) (hne : A ≠ [])
    (hA : ∀ a ∈ A, isAsciiLetterChar a = true)
    (hD : D.takeWhile isAsciiLetterChar = []) :
    firstLetterRun (A ++ D) = some A := by
  cases A with
  | nil => exact absurd rfl hne
  | cons a A =>
    rw [List.cons_append, firstLetterRun_cons,
      if_pos (hA a (List.mem_cons_self a A)),
      takeWhile_append_all _ A (fun x hx => hA x (List.mem_cons_of_mem a hx)) D,
      hD, List.append_nil]

theorem takeWhile_nondigit_eq_letter (l : List Char)
    (hD : (l.dropWhile isAsciiLetterChar).all isDigitChar = true) :
    l.takeWhile (fun c => !isDigitChar c) = l.takeWhile isAsciiLetterChar := by
  induction l with
  | nil => rfl
  | cons a l ih =>
    cases hla : isAsciiLetterChar a with
    | true =>
      have hD' : (l.dropWhile isAsciiLetterChar).all isDigitChar = true := by
        rwa [List.dropWhile_cons_of_pos hla] at hD
      rw [@List.takeWhile_cons_of_pos _ (fun c => !isDigitChar c) a l
          (by simp [letter_not_digit hla]),
        List.takeWhile_cons_of_pos hla, ih hD']
    | false =>
      have hD' : ((a :: l).all isDigitChar) = true := by
        rwa [List.dropWhile_cons_of_neg (by simp [hla])] at hD
      have hda : isDigitChar a = true :=
        List.all_eq_true.mp hD' a (List.mem_cons_self a l)
      rw [@List.takeWhile_cons_of_neg _ (fun c => !isDigitChar c) a l (by simp [hda]),
        List.takeWhile_cons_of_neg (by simp [hla])]

theorem interfacePiece_eq_spec (piece : List Char) (h : wfPiece piece = true) :
    interfacePiece piece = specRangePiece piece := by
  unfold wfPiece at h
  unfold interfacePiece specRangePiece
  cases hsplit : splitOnChar '-' piece with
  | nil => rfl
  | cons first rest =>
    cases rest with
    | nil => rfl
    | cons last rest2 =>
      cases rest2 with
      | cons x xs => rfl
      | nil =>
        rw [hsplit] at h
        simp only [Bool.and_eq_true, Bool.not_eq_true', beq_iff_eq] at h
        obtain ⟨⟨⟨hAne, hDne, hDdig⟩, hlake⟩, hEne, hEdig⟩ := h
        have hnonempty : first.takeWhile isAsciiLetterChar ≠ [] := by
          intro heq
          rw [heq] at hAne
          simp at hAne
        have hDtw : (first.dropWhile isAsciiLetterChar).takeWhile isAsciiLetterChar = [] := by
          cases hDcase : first.dropWhile isAsciiLetterChar with
          | nil => rfl
          | cons d D =>
            have hdd : isDigitChar d = true := by
              rw [hDcase] at hDdig
              exact List.all_eq_true.mp hDdig d (List.mem_cons_self d D)
            rw [List.takeWhile_cons_of_neg (by simp [digit_not_letter hdd])]
        have hflr : firstLetterRun first = some (first.takeWhile isAsciiLetterChar) := by
          have h0 := firstLetterRun_of_split (first.takeWhile isAsciiLetterChar)
            (first.dropWhile isAsciiLetterChar) hnonempty
            (fun a ha => List.mem_takeWhile_imp ha) hDtw
          rwa [List.takeWhile_append_dropWhile] at h0
        have hspec : first.takeWhile (fun c => !isDigitChar c) =
            first.takeWhile isAsciiLetterChar :=
          takeWhile_nondigit_eq_letter first hDdig
        simp only [hflr, hspec]

theorem exceptPieces_cons {α : Type} (f : List Char → Except RangeError (List α))
    (piece : List Char) (rest : List (List Char)) :
    exceptPieces f (piece :: rest) =
      match f piece with
      | Except.error e => Except.error e
      | Except.ok items =>
        match exceptPieces f rest with
        | Except.error e => Except.error e
        | Except.ok more => Except.ok (items ++ more) := rfl

theorem exceptPieces_eq_spec : ∀ ps : List (List Char), ps.all wfPiece = true →
    exceptPieces interfacePiece ps = exceptPieces specRangePiece ps := by
  intro ps
  induction ps with
  | nil => intro _; rfl
  | cons p rest ih =>
    intro hwf
    rw [List.all_cons, Bool.and_eq_true] at hwf
    obtain ⟨hp, hrest⟩ := hwf
    rw [exceptPieces_cons, exceptPieces_cons, interfacePiece_eq_spec p hp, ih hrest]

/-- C6: on range-list strings in which every hyphenated piece has the shape
the claim describes (two endpoints sharing a non-empty letter prefix, each
followed by digits), the code decodes exactly as the specification's
RangeListCodec clause: split on `,`, then on `-`; one component is a single
item; two components expand the inclusive range with the shared non-numeric
prefix; any other component count fails with the malformed-range error. -/
theorem claim_C6 (s : List Char) (hwf : (splitOnChar ',' s).all wfPiece = true) :
    interface_list_from_string s = specRangeDecode s :=
  exceptPieces_eq_spec (splitOnChar ',' s) hwf

/-- Witness for C6 at `"A1-A3,B2"`, which expands to `A1, A2, A3, B2`. -/
theorem claim_C6_witness :
    interface_list_from_string "A1-A3,B2".toList = specRangeDecode "A1-A3,B2".toList ∧
    interface_list_from_string "A1-A3,B2".toList =
      Except.ok ["A1".toList, "A2".toList, "A3".toList, "B2".toList] :=
  ⟨claim_C6 "A1-A3,B2".toList (by decide), by decide⟩

/-- C6 counterexample: read over every range-list string, the claim's
two-component clause fails on a purely numeric range: for `"1-4"` the shared
non-numeric prefix is empty and the spec expansion yields `1, 2, 3, 4`, but
`re.split('([a-zA-Z]+)', "1")` returns a one-element list, so the `[1]`
indexing in the interface-list decoder raises `IndexError` instead. -/
theorem claim_C6_counterexample :
    interface_list_from_string "1-4".toList = Except.error RangeError.indexError ∧
    specRangeDecode "1-4".toList =
      Except.ok ["1".toList, "2".toList, "3".toList, "4".toList] ∧
    (Except.error RangeError.indexError :
        Except RangeError (List (List Char))) ≠
      Except.ok ["1".toList, "2".toList, "3".toList, "4".toList] := by
  decide

/-- C7 (amended): decoding the empty range-list string does not return an
empty sequence: `"".split(',') == ['']`, so the interface-list decoder
returns, without error, one interface whose identifier is the empty string;
the numeric VLAN-range decoder of `Interface._get_tagged_vlans` instead
fails with the `ValueError` that `int('')` raises. -/
theorem claim_C7 :
    interface_list_from_string "".toList = Except.ok ["".toList] ∧
    tagged_vlans_from_string "".toList = Except.error RangeError.valueError := by
  decide

/-- C7 counterexample: the claim says `""` decodes to an empty sequence and
never errors; the interface decoder returns a one-element sequence (an empty
identifier), not an empty one. -/
theorem claim_C7_counterexample :
    interface_list_from_string "".toList = Except.ok ["".toList] ∧
    Except.ok ["".toList] ≠ (Except.ok [] : Except RangeError (List (List Char))) := by
  decide

/-!
## Error surfacing on the already-exists device reply
-/

/-- C8 (amended): when the device reports that the added IPv4 address
already exists, `VLAN.add_ipv4_address` raises an ordinary fatal `Exception`
— there is no distinguished `CacheInconsistency` outcome and the operation
is not treated as a successful convergence; `VLAN.add_tagged_interface`, by
contrast, never inspects the device output at all and returns normally on
every reply, flagging nothing. -/
theorem claim_C8 (addr : List Char)
    (hni : containsSub badIpMsg (alreadyExistsMsg addr) = false) :
    vlan_add_ipv4_outcome addr (alreadyExistsMsg addr) =
      AddOutcome.raisedException
        ("The IPv4 address ".toList ++ addr ++
          " could not be configured because it was already configured for this VLAN.".toList) ∧
    ∀ out : List Char, vlan_add_tagged_outcome out = AddOutcome.returned := by
  refine ⟨?_, fun _ => rfl⟩
  rw [vlan_add_ipv4_outcome, if_neg (by rw [hni]; exact Bool.false_ne_true), if_pos rfl]

/-- Witness for C8 at the address `10.0.0.1/24`. -/
theorem claim_C8_witness :
    vlan_add_ipv4_outcome "10.0.0.1/24".toList
        (alreadyExistsMsg "10.0.0.1/24".toList) =
      AddOutcome.raisedException
        ("The IPv4 address ".toList ++ "10.0.0.1/24".toList ++
          " could not be configured because it was already configured for this VLAN.".toList) ∧
    ∀ out : List Char, vlan_add_tagged_outcome out = AddOutcome.returned :=
  claim_C8 "10.0.0.1/24".toList (by decide)

/-- C8 counterexample: on the already-exists reply the code raises the
ordinary exception rather than returning any flagged-success outcome. -/
theorem claim_C8_counterexample :
    vlan_add_ipv4_outcome "10.0.0.1/24".toList
        (alreadyExistsMsg "10.0.0.1/24".toList) =
      AddOutcome.raisedException
        "The IPv4 address 10.0.0.1/24 could not be configured because it was already configured for this VLAN.".toList ∧
    vlan_add_ipv4_outcome "10.0.0.1/24".toList
        (alreadyExistsMsg "10.0.0.1/24".toList) ≠ AddOutcome.returned := by
  decide

end HpSwitch
